import Mathlib

set_option maxRecDepth 4000

/-!
Shallow embedding of the `aus` repository (a Next.js content studio that
turns a product photo into marketing images) and proofs about its claims.

JavaScript strings are modelled by Lean `String` (a wrapper around
`List Char`); most string lemmas are proved on the underlying `List Char`.
JS `undefined`-able values are modelled by `Option`; JS string falsiness
(`!s` true for `undefined` and `""`) is modelled explicitly.
-/

/-! ## Basic string machinery (substring search, join, trim) -/

/-- Tests whether `pat` is a prefix of `l` (character lists). -/
def beginsWith : List Char → List Char → Bool
  | [], _ => true
  | _ :: _, [] => false
  | p :: ps, c :: cs => p == c && beginsWith ps cs

/-- Tests whether `pat` occurs as a contiguous substring of `l`. -/
def hasSub : List Char → List Char → Bool
  | [], pat => beginsWith pat []
  | c :: t, pat => beginsWith pat (c :: t) || hasSub t pat

/-- String-level substring test, via the underlying character lists. -/
def containsStr (s pat : String) : Bool :=
  hasSub s.data pat.data

/-- Model of JavaScript `Array.prototype.join(sep)` for string arrays. -/
def joinSep (sep : String) : List String → String
  | [] => ""
  | [x] => x
  | x :: y :: rest => x ++ sep ++ joinSep sep (y :: rest)

theorem beginsWith_append_self (p r : List Char) : beginsWith p (p ++ r) = true := by
  induction p with
  | nil => rfl
  | cons c cs ih => simp [beginsWith, ih]

theorem hasSub_of_beginsWith {l pat : List Char} (h : beginsWith pat l = true) :
    hasSub l pat = true := by
  cases l with
  | nil => simpa [hasSub] using h
  | cons c t => simp [hasSub, h]

theorem hasSub_append_right (a : List Char) {b pat : List Char}
    (h : hasSub b pat = true) : hasSub (a ++ b) pat = true := by
  induction a with
  | nil => simpa using h
  | cons c t ih => simp [hasSub, ih]

theorem string_data_append (s t : String) : (s ++ t).data = s.data ++ t.data := by
  cases s; cases t; rfl

theorem string_append_assoc (a b c : String) : a ++ b ++ c = a ++ (b ++ c) := by
  apply String.ext
  simp [string_data_append, List.append_assoc]

theorem containsStr_append_right (s : String) {t pat : String}
    (h : containsStr t pat = true) : containsStr (s ++ t) pat = true := by
  unfold containsStr at h ⊢
  rw [string_data_append]
  exact hasSub_append_right s.data h

theorem containsStr_self_append (pat r : String) : containsStr (pat ++ r) pat = true := by
  unfold containsStr
  rw [string_data_append]
  exact hasSub_of_beginsWith (beginsWith_append_self pat.data r.data)

theorem joinSep_cons_decomp (sep x : String) (xs : List String) :
    ∃ r : String, joinSep sep (x :: xs) = x ++ r := by
  cases xs with
  | nil => exact ⟨"", by simp [joinSep]⟩
  | cons y rest =>
    exact ⟨sep ++ joinSep sep (y :: rest), by simp [joinSep, string_append_assoc]⟩

theorem containsStr_joinSep_of_mem {sep pat : String} {xs : List String}
    (h : pat ∈ xs) : containsStr (joinSep sep xs) pat = true := by
  induction xs with
  | nil => cases h
  | cons x rest ih =>
    rcases List.mem_cons.mp h with rfl | hmem
    · obtain ⟨r, hr⟩ := joinSep_cons_decomp sep pat rest
      rw [hr]
      exact containsStr_self_append pat r
    · cases rest with
      | nil => cases hmem
      | cons y t =>
        show containsStr (x ++ sep ++ joinSep sep (y :: t)) pat = true
        exact containsStr_append_right _ (ih hmem)

/-! ## Data model (src/lib/schemas.ts)

`scenarioSchema`: id/title/summary are required strings; setting, shotList
and hook are optional. `generationSettingsSchema`: focusOnProduct (1-5) and
shots (1-12) are numbers, the four style fields are strings, and the three
toggles are optional booleans. Optional zod fields are `Option`s here. -/

structure Scenario where
  id : String
  title : String
  summary : String
  setting : Option String
  shotList : Option (List String)
  hook : Option String
deriving DecidableEq, Repr

structure GenerationSettings where
  focusOnProduct : Nat
  shots : Nat
  visualStyle : String
  tone : String
  orientation : String
  quality : String
  addMotion : Option Bool
  retouchProduct : Option Bool
  includeCaptions : Option Bool
deriving DecidableEq, Repr

/-- Validity of `GenerationSettings` per `generationSettingsSchema`
(`focusOnProduct` between 1 and 5, `shots` between 1 and 12). -/
def validSettings (s : GenerationSettings) : Bool :=
  1 ≤ s.focusOnProduct && s.focusOnProduct ≤ 5 && 1 ≤ s.shots && s.shots ≤ 12

/-! ## Prompt construction (src/app/api/gemini/generate/route.ts, buildPrompt) -/

/-- The `shotList` fragment of `buildPrompt`: JS tests
`scenario.shotList?.length` for truthiness, so a missing or empty shot list
yields the empty string. -/
def shotListText (scenario : Scenario) : String :=
  match scenario.shotList with
  | some (s :: ss) => "Key shots: " ++ joinSep ", " (s :: ss) ++ "."
  | _ => ""

/-- The `notes` array built by `buildPrompt`: five unconditional entries in
source order, then one entry per enabled boolean toggle. A toggle is pushed
exactly when it is truthy, i.e. present and `true`. -/
def promptNotes (settings : GenerationSettings) : List String :=
  ["Tone: " ++ settings.tone,
   "Visual style: " ++ settings.visualStyle,
   "Orientation: " ++ settings.orientation,
   "Quality: " ++ settings.quality,
   "Focus level (1-5): " ++ toString settings.focusOnProduct]
  ++ (if settings.addMotion = some true then ["Add subtle motion-friendly composition cues"] else [])
  ++ (if settings.retouchProduct = some true then ["Ensure the product looks polished and retouched"] else [])
  ++ (if settings.includeCaptions = some true then ["Include natural caption overlay space in the composition"] else [])

/-- Model of `buildPrompt`: the four leading template-literal pieces followed
by `notes.join(" | ")`. `productName ?? "the featured product"` and
`scenario.setting ?? ""` are `Option.getD`. -/
def buildPrompt (scenario : Scenario) (productName : Option String)
    (settings : GenerationSettings) : String :=
  ("Create a photorealistic UGC marketing photo for "
      ++ productName.getD "the featured product" ++ ". "
    ++ "Scenario title: " ++ scenario.title ++ ". " ++ scenario.summary ++ ". "
      ++ scenario.setting.getD "" ++ ". " ++ shotListText scenario ++ " "
    ++ "The audience should immediately understand how it solves their need. "
    ++ "Keep the composition authentic, candid, and ready for social media. ")
  ++ joinSep " | " (promptNotes settings)

/-- C5: for every scenario and product name, the prompt built from settings
with focusOnProduct = 5, tone = "Cinematic" and addMotion = true contains
the substrings "Focus level (1-5): 5", "Tone: Cinematic" and
"Add subtle motion-friendly composition cues". -/
theorem buildPrompt_contains_mandated_notes
    (scenario : Scenario) (productName : Option String)
    (settings : GenerationSettings)
    (hfocus : settings.focusOnProduct = 5)
    (htone : settings.tone = "Cinematic")
    (hmotion : settings.addMotion = some true) :
    containsStr (buildPrompt scenario productName settings) "Focus level (1-5): 5" = true
      ∧ containsStr (buildPrompt scenario productName settings) "Tone: Cinematic" = true
      ∧ containsStr (buildPrompt scenario productName settings)
          "Add subtle motion-friendly composition cues" = true := by
  have hmem : ∀ pat : String, pat ∈ promptNotes settings →
      containsStr (buildPrompt scenario productName settings) pat = true := by
    intro pat hp
    unfold buildPrompt
    exact containsStr_append_right _ (containsStr_joinSep_of_mem hp)
  refine ⟨?_, ?_, ?_⟩
  · refine hmem _ ?_
    have h5 : "Focus level (1-5): " ++ toString settings.focusOnProduct
        = "Focus level (1-5): 5" := by rw [hfocus]; rfl
    simp [promptNotes, ← h5]
  · refine hmem _ ?_
    have ht : "Tone: " ++ settings.tone = "Tone: Cinematic" := by rw [htone]; rfl
    simp [promptNotes, ← ht]
  · refine hmem _ ?_
    simp [promptNotes, hmotion]

/-- C5 witness: the theorem instantiated at a concrete scenario and settings. -/
theorem buildPrompt_contains_mandated_notes_witness :
    containsStr
      (buildPrompt
        ⟨"s1", "Morning desk", "A sunlit desk scene", none, none, none⟩
        (some "Glow Serum")
        ⟨5, 6, "Natural", "Cinematic", "Landscape", "Standard", some true, none, none⟩)
      "Focus level (1-5): 5" = true
    ∧ containsStr
      (buildPrompt
        ⟨"s1", "Morning desk", "A sunlit desk scene", none, none, none⟩
        (some "Glow Serum")
        ⟨5, 6, "Natural", "Cinematic", "Landscape", "Standard", some true, none, none⟩)
      "Tone: Cinematic" = true
    ∧ containsStr
      (buildPrompt
        ⟨"s1", "Morning desk", "A sunlit desk scene", none, none, none⟩
        (some "Glow Serum")
        ⟨5, 6, "Natural", "Cinematic", "Landscape", "Standard", some true, none, none⟩)
      "Add subtle motion-friendly composition cues" = true :=
  buildPrompt_contains_mandated_notes _ _ _ rfl rfl rfl

/-! ## Provider response model (src/app/api/gemini/generate/route.ts)

The Gemini response is duck-typed in the source (`GeminiInlinePart`,
`GeminiCandidate`); every `?.` chain is an `Option.bind` here. The `ok`
field models `response.ok` (HTTP status in the 200 range). -/

structure InlineData where
  data : Option String
  mimeType : Option String
deriving DecidableEq, Repr

structure GeminiInlinePart where
  inlineData : Option InlineData
deriving DecidableEq, Repr

structure GeminiContent where
  parts : Option (List GeminiInlinePart)
deriving DecidableEq, Repr

structure GeminiCandidate where
  content : Option GeminiContent
deriving DecidableEq, Repr

structure ProviderResponse where
  ok : Bool
  candidates : Option (List GeminiCandidate)
deriving DecidableEq, Repr

/-- Model of `json.candidates?.[0] ?? null`: the first candidate when the
array is present and non-empty. -/
def firstCandidate (resp : ProviderResponse) : Option GeminiCandidate :=
  match resp.candidates with
  | some (c :: _) => some c
  | _ => none

/-- Model of `candidate?.content?.parts?.find((item) => item.inlineData)`:
the first part whose `inlineData` field is present (object truthiness). -/
def findInlinePart (resp : ProviderResponse) : Option GeminiInlinePart :=
  ((firstCandidate resp).bind (fun c => c.content)).bind
    (fun ct => ct.parts.bind (List.find? (fun item => item.inlineData.isSome)))

/-- Model of the guard `!part?.inlineData?.data || !part?.inlineData?.mimeType`
followed by the push of `(mimeType, data)`: `none` models the thrown
"Gemini response did not include image data" error. JS string falsiness
makes an explicitly empty `data`/`mimeType` fail the guard too. -/
def extractImageData (resp : ProviderResponse) : Option (String × String) :=
  match findInlinePart resp with
  | none => none
  | some part =>
    match part.inlineData with
    | none => none
    | some idata =>
      match idata.data, idata.mimeType with
      | some d, some m => if d = "" || m = "" then none else some (m, d)
      | _, _ => none

/-! ## Image-generation endpoint model (POST of the same route) -/

structure GeminiImagePart where
  mimeType : String
  data : String
  scenario : Scenario
deriving DecidableEq, Repr

structure ProductImage where
  data : String
  mimeType : String
deriving DecidableEq, Repr

structure GenRequest where
  threadId : Option String
  productName : Option String
  productImage : ProductImage
  scenarios : List Scenario
  settings : GenerationSettings
deriving DecidableEq, Repr

/-- Validity of a generate request per `requestSchema`: image data at least
10 characters, at least one scenario, settings within schema bounds. -/
def validGenRequest (r : GenRequest) : Bool :=
  10 ≤ r.productImage.data.length && !r.scenarios.isEmpty && validSettings r.settings

/-- JS falsiness of an environment variable: absent or the empty string. -/
def isFalsyEnv (v : Option String) : Bool :=
  match v with
  | none => true
  | some s => s = ""

structure GenEnv where
  geminiApiKey : Option String
  geminiImageModel : Option String
  supabaseUrl : Option String
  supabaseServiceRoleKey : Option String
deriving DecidableEq, Repr

/-- The `if (!url || !key) return null` guard of `getSupabaseServerClient`. -/
def supabaseConfigured (env : GenEnv) : Bool :=
  !(isFalsyEnv env.supabaseUrl) && !(isFalsyEnv env.supabaseServiceRoleKey)

/-- The per-scenario fetch loop of `POST`. The provider is an oracle mapping
the call index and the request prompt to a `ProviderResponse`; `k` is the
index of the next call. Returns the accumulated results (or the thrown
error) together with the number of fetches issued. -/
def generateLoop (oracle : Nat → String → ProviderResponse)
    (productName : Option String) (settings : GenerationSettings) :
    List Scenario → Nat → Except Unit (List GeminiImagePart) × Nat
  | [], _ => (Except.ok [], 0)
  | sc :: rest, k =>
    let resp := oracle k (buildPrompt sc productName settings)
    if resp.ok then
      match extractImageData resp with
      | some (m, d) =>
        match generateLoop oracle productName settings rest (k + 1) with
        | (Except.ok parts, calls) => (Except.ok (⟨m, d, sc⟩ :: parts), calls + 1)
        | (Except.error e, calls) => (Except.error e, calls + 1)
      | none => (Except.error (), 1)
    else (Except.error (), 1)

inductive GenApiResponse where
  | ok (images : List GeminiImagePart)
  | configError
  | badRequest
  | generationError
deriving DecidableEq, Repr

/-- HTTP status attached to each response shape by the route. -/
def httpStatus : GenApiResponse → Nat
  | GenApiResponse.ok _ => 200
  | GenApiResponse.configError => 500
  | GenApiResponse.badRequest => 400
  | GenApiResponse.generationError => 500

structure GenEffects where
  networkCalls : Nat
  dbInsertAttempts : Nat
  dbWarnings : Nat
deriving DecidableEq, Repr

/-- Model of the route handler `POST`: missing API key is checked first,
then request validation, then the sequential provider loop; on success, if
Supabase is configured one metadata insert is attempted whose failure is
only logged (a warning), never surfaced. `dbInsertFails` models the
datastore's answer to that insert. -/
def postGenerate (env : GenEnv) (oracle : Nat → String → ProviderResponse)
    (dbInsertFails : Bool) (req : GenRequest) : GenApiResponse × GenEffects :=
  if isFalsyEnv env.geminiApiKey then (GenApiResponse.configError, ⟨0, 0, 0⟩)
  else if !(validGenRequest req) then (GenApiResponse.badRequest, ⟨0, 0, 0⟩)
  else
    match generateLoop oracle req.productName req.settings req.scenarios 0 with
    | (Except.error _, calls) => (GenApiResponse.generationError, ⟨calls, 0, 0⟩)
    | (Except.ok results, calls) =>
      if supabaseConfigured env then
        if dbInsertFails then (GenApiResponse.ok results, ⟨calls, 1, 1⟩)
        else (GenApiResponse.ok results, ⟨calls, 1, 0⟩)
      else (GenApiResponse.ok results, ⟨calls, 0, 0⟩)

/-! ### Loop lemmas -/

theorem generateLoop_all_ok (oracle : Nat → String → ProviderResponse)
    (pn : Option String) (st : GenerationSettings) :
    ∀ (scs : List Scenario) (k : Nat),
      (∀ j (hj : j < scs.length),
          (oracle (k + j) (buildPrompt (scs.get ⟨j, hj⟩) pn st)).ok = true
          ∧ (extractImageData
              (oracle (k + j) (buildPrompt (scs.get ⟨j, hj⟩) pn st))).isSome = true) →
      ∃ parts, generateLoop oracle pn st scs k = (Except.ok parts, scs.length)
        ∧ List.map (fun p => p.scenario) parts = scs := by
  intro scs
  induction scs with
  | nil => intro k _; exact ⟨[], rfl, rfl⟩
  | cons sc rest ih =>
    intro k h
    have h0 := h 0 (Nat.succ_pos _)
    have hok : (oracle (k + 0) (buildPrompt sc pn st)).ok = true := h0.1
    have hsome : (extractImageData (oracle (k + 0) (buildPrompt sc pn st))).isSome = true := h0.2
    have hrest : ∀ j (hj : j < rest.length),
        (oracle (k + 1 + j) (buildPrompt (rest.get ⟨j, hj⟩) pn st)).ok = true
        ∧ (extractImageData
            (oracle (k + 1 + j) (buildPrompt (rest.get ⟨j, hj⟩) pn st))).isSome = true := by
      intro j hj
      have := h (j + 1) (Nat.succ_lt_succ hj)
      simpa [Nat.add_comm, Nat.add_assoc, Nat.add_left_comm] using this
    obtain ⟨parts, hloop, hmap⟩ := ih (k + 1) hrest
    rw [Nat.add_zero] at hok hsome
    obtain ⟨⟨m, d⟩, hmd⟩ := Option.isSome_iff_exists.mp hsome
    refine ⟨⟨m, d, sc⟩ :: parts, ?_, by simp [hmap]⟩
    show (if (oracle k (buildPrompt sc pn st)).ok = true then _ else _) = _
    rw [if_pos hok]
    simp only [hmd, hloop, List.length_cons]

theorem generateLoop_with_failure (oracle : Nat → String → ProviderResponse)
    (pn : Option String) (st : GenerationSettings) :
    ∀ (scs : List Scenario) (k : Nat),
      (∃ j, ∃ hj : j < scs.length,
          (oracle (k + j) (buildPrompt (scs.get ⟨j, hj⟩) pn st)).ok = false) →
      ∃ calls, generateLoop oracle pn st scs k = (Except.error (), calls) := by
  intro scs
  induction scs with
  | nil =>
    intro k h
    obtain ⟨j, hj, _⟩ := h
    exact absurd hj (Nat.not_lt_zero j)
  | cons sc rest ih =>
    intro k h
    by_cases hok : (oracle k (buildPrompt sc pn st)).ok = true
    · have hrest : ∃ j, ∃ hj : j < rest.length,
          (oracle (k + 1 + j) (buildPrompt (rest.get ⟨j, hj⟩) pn st)).ok = false := by
        obtain ⟨j, hj, hfail⟩ := h
        cases j with
        | zero =>
          have hfail' : (oracle (k + 0) (buildPrompt sc pn st)).ok = false := hfail
          rw [Nat.add_zero, hok] at hfail'
          cases hfail'
        | succ j' =>
          refine ⟨j', Nat.lt_of_succ_lt_succ hj, ?_⟩
          simpa [Nat.add_comm, Nat.add_assoc, Nat.add_left_comm] using hfail
      obtain ⟨calls, hloop⟩ := ih (k + 1) hrest
      cases hext : extractImageData (oracle k (buildPrompt sc pn st)) with
      | none =>
        refine ⟨1, ?_⟩
        show (if (oracle k (buildPrompt sc pn st)).ok = true then _ else _) = _
        rw [if_pos hok]
        simp only [hext]
      | some md =>
        obtain ⟨m, d⟩ := md
        refine ⟨calls + 1, ?_⟩
        show (if (oracle k (buildPrompt sc pn st)).ok = true then _ else _) = _
        rw [if_pos hok]
        simp only [hext, hloop]
    · refine ⟨1, ?_⟩
      show (if (oracle k (buildPrompt sc pn st)).ok = true then _ else _) = _
      rw [if_neg hok]

/-! ### Concrete fixtures used by the witnesses -/

def sampleScenario : Scenario :=
  ⟨"s1", "Morning routine", "A customer starts the day with the product", none, none, none⟩

def sampleSettings : GenerationSettings :=
  ⟨3, 6, "Natural", "Playful", "Landscape", "Standard", none, none, none⟩

def sampleEnv : GenEnv :=
  ⟨some "test-key", none, some "https://db.example", some "service-role"⟩

def sampleRequest : GenRequest :=
  ⟨some "thread-1", some "Glow Serum", ⟨"0123456789", "image/png"⟩,
    [sampleScenario], sampleSettings⟩

def completeInlinePart : GeminiInlinePart :=
  ⟨some ⟨some "imagebytes", some "image/png"⟩⟩

def incompleteInlinePart : GeminiInlinePart :=
  ⟨some ⟨none, some "image/png"⟩⟩

/-- A 200 provider response whose single candidate carries `parts`. -/
def okResponseWithParts (parts : List GeminiInlinePart) : ProviderResponse :=
  ⟨true, some [⟨some ⟨some parts⟩⟩]⟩

def okOracle : Nat → String → ProviderResponse :=
  fun _ _ => okResponseWithParts [completeInlinePart]

def badStatusOracle : Nat → String → ProviderResponse :=
  fun _ _ => ⟨false, none⟩

/-! ### Claim C1 -/

/-- C1: with the API key configured, a valid request with N scenarios, and
every per-scenario provider call succeeding (200 plus extractable image
data), the endpoint returns an `ok` payload whose image list projects, in
order, exactly onto the input scenario list — N entries, the k-th entry's
scenario equal to the k-th input scenario (hence equal by id). -/
theorem postGenerate_success_images_match_scenarios
    (env : GenEnv) (oracle : Nat → String → ProviderResponse)
    (dbInsertFails : Bool) (req : GenRequest)
    (hkey : isFalsyEnv env.geminiApiKey = false)
    (hvalid : validGenRequest req = true)
    (hcalls : ∀ j (hj : j < req.scenarios.length),
        (oracle j (buildPrompt (req.scenarios.get ⟨j, hj⟩)
            req.productName req.settings)).ok = true
        ∧ (extractImageData (oracle j (buildPrompt (req.scenarios.get ⟨j, hj⟩)
            req.productName req.settings))).isSome = true) :
    ∃ images, (postGenerate env oracle dbInsertFails req).1 = GenApiResponse.ok images
      ∧ List.map (fun p => p.scenario) images = req.scenarios := by
  have hcalls0 : ∀ j (hj : j < req.scenarios.length),
      (oracle (0 + j) (buildPrompt (req.scenarios.get ⟨j, hj⟩)
          req.productName req.settings)).ok = true
      ∧ (extractImageData (oracle (0 + j) (buildPrompt (req.scenarios.get ⟨j, hj⟩)
          req.productName req.settings))).isSome = true := by
    intro j hj
    simpa [Nat.zero_add] using hcalls j hj
  obtain ⟨parts, hloop, hmap⟩ :=
    generateLoop_all_ok oracle req.productName req.settings req.scenarios 0 hcalls0
  refine ⟨parts, ?_, hmap⟩
  cases hsupa : supabaseConfigured env
  · simp [postGenerate, hkey, hvalid, hloop, hsupa]
  · cases dbInsertFails <;> simp [postGenerate, hkey, hvalid, hloop, hsupa]

/-- C1 witness: the theorem applied to the sample request and an oracle
that always answers with a complete inline image. -/
theorem postGenerate_success_images_match_scenarios_witness :
    isFalsyEnv sampleEnv.geminiApiKey = false
    ∧ validGenRequest sampleRequest = true
    ∧ (∃ images,
        (postGenerate sampleEnv okOracle false sampleRequest).1 = GenApiResponse.ok images
        ∧ List.map (fun p => p.scenario) images = sampleRequest.scenarios) :=
  ⟨by decide, by decide,
    postGenerate_success_images_match_scenarios sampleEnv okOracle false sampleRequest
      (by decide) (by decide) (fun j hj => ⟨rfl, rfl⟩)⟩

/-! ### Claim C3 -/

/-- C3: with the API key configured and a valid request, if some
per-scenario provider call (as issued by the loop) returns a non-success
status, the endpoint answers with the generic 500 generation error — a
payload carrying no images — and attempts zero datastore writes. -/
theorem postGenerate_provider_failure_aborts
    (env : GenEnv) (oracle : Nat → String → ProviderResponse)
    (dbInsertFails : Bool) (req : GenRequest)
    (hkey : isFalsyEnv env.geminiApiKey = false)
    (hvalid : validGenRequest req = true)
    (hfail : ∃ j, ∃ hj : j < req.scenarios.length,
        (oracle j (buildPrompt (req.scenarios.get ⟨j, hj⟩)
            req.productName req.settings)).ok = false) :
    (postGenerate env oracle dbInsertFails req).1 = GenApiResponse.generationError
    ∧ httpStatus (postGenerate env oracle dbInsertFails req).1 = 500
    ∧ (postGenerate env oracle dbInsertFails req).2.dbInsertAttempts = 0 := by
  have hfail0 : ∃ j, ∃ hj : j < req.scenarios.length,
      (oracle (0 + j) (buildPrompt (req.scenarios.get ⟨j, hj⟩)
          req.productName req.settings)).ok = false := by
    obtain ⟨j, hj, hf⟩ := hfail
    exact ⟨j, hj, by simpa [Nat.zero_add] using hf⟩
  obtain ⟨calls, hloop⟩ :=
    generateLoop_with_failure oracle req.productName req.settings req.scenarios 0 hfail0
  refine ⟨?_, ?_, ?_⟩ <;> simp [postGenerate, httpStatus, hkey, hvalid, hloop]

/-- C3 witness: the theorem applied to the sample request and an oracle
answering with a non-success status. -/
theorem postGenerate_provider_failure_aborts_witness :
    isFalsyEnv sampleEnv.geminiApiKey = false
    ∧ validGenRequest sampleRequest = true
    ∧ (postGenerate sampleEnv badStatusOracle false sampleRequest).1
        = GenApiResponse.generationError
    ∧ httpStatus (postGenerate sampleEnv badStatusOracle false sampleRequest).1 = 500
    ∧ (postGenerate sampleEnv badStatusOracle false sampleRequest).2.dbInsertAttempts = 0 :=
  ⟨by decide, by decide,
    postGenerate_provider_failure_aborts sampleEnv badStatusOracle false sampleRequest
      (by decide) (by decide) ⟨0, by decide, rfl⟩⟩

/-! ### Claim C4 -/

/-- C4: when every provider call succeeds and Supabase is configured, a
failing metadata insert changes neither the response shape nor the body:
both runs return the same full `ok` payload, exactly one insert is
attempted, and the failure surfaces only as a logged warning. -/
theorem postGenerate_db_failure_is_silent
    (env : GenEnv) (oracle : Nat → String → ProviderResponse) (req : GenRequest)
    (hkey : isFalsyEnv env.geminiApiKey = false)
    (hvalid : validGenRequest req = true)
    (hsupa : supabaseConfigured env = true)
    (hcalls : ∀ j (hj : j < req.scenarios.length),
        (oracle j (buildPrompt (req.scenarios.get ⟨j, hj⟩)
            req.productName req.settings)).ok = true
        ∧ (extractImageData (oracle j (buildPrompt (req.scenarios.get ⟨j, hj⟩)
            req.productName req.settings))).isSome = true) :
    (postGenerate env oracle true req).1 = (postGenerate env oracle false req).1
    ∧ (∃ images, (postGenerate env oracle true req).1 = GenApiResponse.ok images
        ∧ List.map (fun p => p.scenario) images = req.scenarios)
    ∧ (postGenerate env oracle true req).2.dbInsertAttempts = 1
    ∧ (postGenerate env oracle true req).2.dbWarnings = 1 := by
  have hcalls0 : ∀ j (hj : j < req.scenarios.length),
      (oracle (0 + j) (buildPrompt (req.scenarios.get ⟨j, hj⟩)
          req.productName req.settings)).ok = true
      ∧ (extractImageData (oracle (0 + j) (buildPrompt (req.scenarios.get ⟨j, hj⟩)
          req.productName req.settings))).isSome = true := by
    intro j hj
    simpa [Nat.zero_add] using hcalls j hj
  obtain ⟨parts, hloop, hmap⟩ :=
    generateLoop_all_ok oracle req.productName req.settings req.scenarios 0 hcalls0
  have htrue : postGenerate env oracle true req
      = (GenApiResponse.ok parts, ⟨req.scenarios.length, 1, 1⟩) := by
    simp [postGenerate, hkey, hvalid, hloop, hsupa]
  have hfalse : postGenerate env oracle false req
      = (GenApiResponse.ok parts, ⟨req.scenarios.length, 1, 0⟩) := by
    simp [postGenerate, hkey, hvalid, hloop, hsupa]
  rw [htrue, hfalse]
  exact ⟨rfl, ⟨parts, rfl, hmap⟩, rfl, rfl⟩

/-- C4 witness: the theorem applied to the sample request, the always-ok
oracle, and the Supabase-configured sample environment. -/
theorem postGenerate_db_failure_is_silent_witness :
    supabaseConfigured sampleEnv = true
    ∧ (postGenerate sampleEnv okOracle true sampleRequest).1
        = (postGenerate sampleEnv okOracle false sampleRequest).1
    ∧ (∃ images, (postGenerate sampleEnv okOracle true sampleRequest).1
        = GenApiResponse.ok images
        ∧ List.map (fun p => p.scenario) images = sampleRequest.scenarios)
    ∧ (postGenerate sampleEnv okOracle true sampleRequest).2.dbInsertAttempts = 1
    ∧ (postGenerate sampleEnv okOracle true sampleRequest).2.dbWarnings = 1 :=
  ⟨by decide,
    postGenerate_db_failure_is_silent sampleEnv okOracle sampleRequest
      (by decide) (by decide) (by decide) (fun j hj => ⟨rfl, rfl⟩)⟩

/-! ### Claim C7 -/

/-- C7: when the GOOGLE_GEMINI_API_KEY environment variable is unset (or
empty, which JS also treats as missing), the endpoint returns the
configuration error with HTTP status 500 having issued zero network calls
to the provider, for every oracle and request. -/
theorem postGenerate_missing_key_no_network
    (env : GenEnv) (oracle : Nat → String → ProviderResponse)
    (dbInsertFails : Bool) (req : GenRequest)
    (hkey : isFalsyEnv env.geminiApiKey = true) :
    (postGenerate env oracle dbInsertFails req).1 = GenApiResponse.configError
    ∧ httpStatus (postGenerate env oracle dbInsertFails req).1 = 500
    ∧ (postGenerate env oracle dbInsertFails req).2.networkCalls = 0 := by
  refine ⟨?_, ?_, ?_⟩ <;> simp [postGenerate, httpStatus, hkey]

/-- C7 witness: the theorem applied to an environment without the key. -/
theorem postGenerate_missing_key_no_network_witness :
    isFalsyEnv (GenEnv.mk none none none none).geminiApiKey = true
    ∧ (postGenerate ⟨none, none, none, none⟩ okOracle false sampleRequest).1
        = GenApiResponse.configError
    ∧ httpStatus (postGenerate ⟨none, none, none, none⟩ okOracle false sampleRequest).1 = 500
    ∧ (postGenerate ⟨none, none, none, none⟩ okOracle false sampleRequest).2.networkCalls = 0 :=
  ⟨by decide,
    postGenerate_missing_key_no_network ⟨none, none, none, none⟩ okOracle false
      sampleRequest (by decide)⟩

/-! ### Claim C10 -/

theorem find_first_match {α : Type} (p : α → Bool) :
    ∀ (pre : List α) (x : α) (post : List α),
      (∀ q ∈ pre, p q = false) → p x = true →
      List.find? p (pre ++ x :: post) = some x := by
  intro pre
  induction pre with
  | nil =>
    intro x post _ hx
    simp [List.find?, hx]
  | cons a t ih =>
    intro x post hpre hx
    have ha : p a = false := hpre a (List.mem_cons_self a t)
    have := ih x post (fun q hq => hpre q (List.mem_cons_of_mem a hq)) hx
    simpa [List.find?, ha] using this

/-- C10: the inline-image extractor selects the first response part whose
`inlineData` field is present, even when that part's `data` or `mimeType`
is missing — so any response whose first `inlineData`-bearing part is
incomplete is rejected wholesale, no matter what later parts carry; in
particular the endpoint fails the whole batch on such a response even though
a later part holds a complete data/MIME pair. -/
theorem extract_uses_first_inline_part_even_if_incomplete :
    (∀ (pre : List GeminiInlinePart) (p : GeminiInlinePart)
        (post : List GeminiInlinePart) (idata : InlineData),
        (∀ q ∈ pre, q.inlineData = none) → p.inlineData = some idata →
        (idata.data = none ∨ idata.mimeType = none) →
        extractImageData (okResponseWithParts (pre ++ p :: post)) = none)
    ∧ (postGenerate sampleEnv
        (fun _ _ => okResponseWithParts [incompleteInlinePart, completeInlinePart])
        false sampleRequest).1 = GenApiResponse.generationError := by
  constructor
  · intro pre p post idata hpre hp hinc
    have hfind : List.find? (fun item => item.inlineData.isSome) (pre ++ p :: post)
        = some p :=
      find_first_match _ pre p post (fun q hq => by simp [hpre q hq]) (by simp [hp])
    have hpart : findInlinePart (okResponseWithParts (pre ++ p :: post)) = some p := by
      simp [findInlinePart, firstCandidate, okResponseWithParts, hfind]
    obtain ⟨od, om⟩ := idata
    rcases hinc with hd | hm
    · have hd' : od = none := hd
      subst hd'
      cases om <;> simp [extractImageData, hpart, hp]
    · have hm' : om = none := hm
      subst hm'
      cases od <;> simp [extractImageData, hpart, hp]
  · decide

/-- C10 witness: the general part of the theorem applied to the concrete
response whose first inline part lacks `data` and whose second is complete. -/
theorem extract_uses_first_inline_part_even_if_incomplete_witness :
    extractImageData (okResponseWithParts [incompleteInlinePart, completeInlinePart])
      = none :=
  extract_uses_first_inline_part_even_if_incomplete.1
    [] incompleteInlinePart [completeInlinePart] ⟨none, some "image/png"⟩
    (fun q hq => absurd hq (List.not_mem_nil q)) rfl (Or.inl rfl)

/-! ## Supabase server client (src/lib/supabase-server.ts)

`cachedClient` is a module-level mutable variable; it is modelled as
explicit state. Client identity is modelled by a construction counter:
`createClient` hands out the next fresh id, so `nextId` counts how many
clients were ever constructed in the process. -/

structure SupaState where
  cachedClient : Option Nat
  nextId : Nat
deriving DecidableEq, Repr

def initialSupaState : SupaState := ⟨none, 0⟩

/-- Model of `getSupabaseServerClient`: `if (!url || !key) return null`,
then return the cached client, constructing it first if the cache is
empty. -/
def getSupabaseServerClient (env : GenEnv) (st : SupaState) : Option Nat × SupaState :=
  if isFalsyEnv env.supabaseUrl || isFalsyEnv env.supabaseServiceRoleKey then (none, st)
  else
    match st.cachedClient with
    | some c => (some c, st)
    | none => (some st.nextId, ⟨some st.nextId, st.nextId + 1⟩)

/-- Runs `n` successive accessor calls, collecting each returned handle. -/
def supaCallSeq (env : GenEnv) : Nat → SupaState → List (Option Nat) × SupaState
  | 0, st => ([], st)
  | n + 1, st =>
    let r := getSupabaseServerClient env st
    let rest := supaCallSeq env n r.2
    (r.1 :: rest.1, rest.2)

theorem supaCallSeq_cached (env : GenEnv)
    (hok : (isFalsyEnv env.supabaseUrl || isFalsyEnv env.supabaseServiceRoleKey) = false)
    (c nid : Nat) :
    ∀ n, supaCallSeq env n ⟨some c, nid⟩ = (List.replicate n (some c), ⟨some c, nid⟩) := by
  intro n
  induction n with
  | zero => rfl
  | succ m ih =>
    simp only [supaCallSeq, getSupabaseServerClient, hok, Bool.false_eq_true, if_false, ih]
    rfl

theorem supaCallSeq_unconfigured (env : GenEnv)
    (hbad : (isFalsyEnv env.supabaseUrl || isFalsyEnv env.supabaseServiceRoleKey) = true)
    (st : SupaState) :
    ∀ n, supaCallSeq env n st = (List.replicate n none, st) := by
  intro n
  induction n with
  | zero => rfl
  | succ m ih =>
    simp only [supaCallSeq, getSupabaseServerClient, hbad, if_true, ih]
    rfl

/-- C9: starting from a fresh process (empty cache, zero constructions),
when both datastore credentials are configured the first accessor call
constructs the one and only client and every call — first included —
returns that same handle, the total number of constructions being
`min n 1`; when either credential is absent every call returns `null` and
the state (hence the construction count) never changes. -/
theorem supabase_client_constructed_at_most_once (env : GenEnv) (n : Nat) :
    (supabaseConfigured env = true →
      (supaCallSeq env n initialSupaState).2.nextId = min n 1
      ∧ ∀ r ∈ (supaCallSeq env n initialSupaState).1, r = some 0)
    ∧ (supabaseConfigured env = false →
      (supaCallSeq env n initialSupaState).2 = initialSupaState
      ∧ ∀ r ∈ (supaCallSeq env n initialSupaState).1, r = none) := by
  constructor
  · intro hconf
    have hok : (isFalsyEnv env.supabaseUrl || isFalsyEnv env.supabaseServiceRoleKey)
        = false := by
      simp only [supabaseConfigured, Bool.and_eq_true, Bool.not_eq_true'] at hconf
      simp [hconf.1, hconf.2]
    cases n with
    | zero => exact ⟨rfl, by intro r hr; cases hr⟩
    | succ m =>
      have hfirst : getSupabaseServerClient env initialSupaState
          = (some 0, ⟨some 0, 1⟩) := by
        simp [getSupabaseServerClient, hok, initialSupaState]
      have hrest := supaCallSeq_cached env hok 0 1 m
      constructor
      · simp [supaCallSeq, hfirst, hrest, Nat.min_def]
      · intro r hr
        simp only [supaCallSeq, hfirst, hrest] at hr
        rcases List.mem_cons.mp hr with rfl | hmem
        · rfl
        · exact List.eq_of_mem_replicate hmem
  · intro hconf
    have hbad : (isFalsyEnv env.supabaseUrl || isFalsyEnv env.supabaseServiceRoleKey)
        = true := by
      by_contra hne
      have hok : (isFalsyEnv env.supabaseUrl || isFalsyEnv env.supabaseServiceRoleKey)
          = false := by
        cases h : (isFalsyEnv env.supabaseUrl || isFalsyEnv env.supabaseServiceRoleKey)
        · rfl
        · exact absurd h hne
      simp only [Bool.or_eq_false_iff] at hok
      simp [supabaseConfigured, hok.1, hok.2] at hconf
    have := supaCallSeq_unconfigured env hbad initialSupaState n
    refine ⟨by simp [this], ?_⟩
    intro r hr
    rw [this] at hr
    exact List.eq_of_mem_replicate hr

/-- C9 witness: three calls against the configured sample environment
construct exactly one client and always return it; three calls against an
unconfigured environment construct nothing and return null. -/
theorem supabase_client_constructed_at_most_once_witness :
    (supabaseConfigured sampleEnv = true
      ∧ (supaCallSeq sampleEnv 3 initialSupaState).2.nextId = min 3 1
      ∧ ∀ r ∈ (supaCallSeq sampleEnv 3 initialSupaState).1, r = some 0)
    ∧ (supabaseConfigured ⟨some "k", none, none, none⟩ = false
      ∧ (supaCallSeq ⟨some "k", none, none, none⟩ 3 initialSupaState).2 = initialSupaState
      ∧ ∀ r ∈ (supaCallSeq ⟨some "k", none, none, none⟩ 3 initialSupaState).1, r = none) :=
  ⟨⟨by decide,
    (supabase_client_constructed_at_most_once sampleEnv 3).1 (by decide)⟩,
   ⟨by decide,
    (supabase_client_constructed_at_most_once ⟨some "k", none, none, none⟩ 3).2 (by decide)⟩⟩

/-! ## Scenario request schema (src/app/api/openai/scenarios/route.ts)

`scenarioRequestSchema` is a zod object. Fields carry their JS types here
(strings, integer numbers, string arrays); an absent field is `none`. The
zod chains `z.number().int().min(lo).max(hi).default(d)` validate a present
value against the bounds — they reject an out-of-range value rather than
clamp it — and substitute the default for an absent one. -/

structure RawScenarioRequest where
  threadId : Option String
  audience : Option String
  productDetails : Option String
  productName : Option String
  niche : Option String
  tone : Option String
  visualStyle : Option String
  shots : Option Int
  focusOnProduct : Option Int
  additionalNotes : Option (List String)
deriving DecidableEq, Repr

structure ScenarioRequest where
  threadId : String
  audience : String
  productDetails : String
  productName : Option String
  niche : Option String
  tone : Option String
  visualStyle : Option String
  shots : Int
  focusOnProduct : Int
  additionalNotes : Option (List String)
deriving DecidableEq, Repr

/-- Model of `z.number().int().min(lo).max(hi).default(dflt)` on an
integer-valued input: absent yields the default, in-range values pass
through unchanged, out-of-range values fail validation. -/
def checkIntRange (lo hi dflt : Int) : Option Int → Option Int
  | none => some dflt
  | some v => if lo ≤ v ∧ v ≤ hi then some v else none

/-- Model of `scenarioRequestSchema.safeParse`: threadId required,
audience and productDetails required and non-empty, shots validated
against 1-12 with default 6, focusOnProduct against 1-5 with default 3,
everything else optional and passed through. -/
def parseScenarioRequest (raw : RawScenarioRequest) : Option ScenarioRequest :=
  match raw.threadId, raw.audience, raw.productDetails with
  | some tid, some aud, some pd =>
    if aud.length < 1 || pd.length < 1 then none
    else
      match checkIntRange 1 12 6 raw.shots, checkIntRange 1 5 3 raw.focusOnProduct with
      | some sh, some fo =>
        some ⟨tid, aud, pd, raw.productName, raw.niche, raw.tone, raw.visualStyle,
          sh, fo, raw.additionalNotes⟩
      | _, _ => none
  | _, _, _ => none

theorem checkIntRange_some {lo hi dflt : Int} {o : Option Int} {v : Int}
    (h : checkIntRange lo hi dflt o = some v) :
    (o = none ∧ v = dflt) ∨ (o = some v ∧ lo ≤ v ∧ v ≤ hi) := by
  cases o with
  | none =>
    left
    refine ⟨rfl, ?_⟩
    have : dflt = v := by simpa [checkIntRange] using h
    exact this.symm
  | some w =>
    right
    by_cases hb : lo ≤ w ∧ w ≤ hi
    · have hw : w = v := by simpa [checkIntRange, hb] using h
      subst hw
      exact ⟨rfl, hb⟩
    · simp [checkIntRange, hb] at h

theorem checkIntRange_out {lo hi dflt v : Int} (h : v < lo ∨ hi < v) :
    checkIntRange lo hi dflt (some v) = none := by
  have hb : ¬(lo ≤ v ∧ v ≤ hi) := by omega
  simp [checkIntRange, hb]

/-- Concrete raw request that is valid except for `shots = 13`. -/
def rawShots13 : RawScenarioRequest :=
  ⟨some "t1", some "busy parents", some "a calming tea", none, none, none, none,
    some 13, none, none⟩

/-- C2 counterexample: the claim says an out-of-range shot count is clamped
into 1-12 (13 becoming 12); the schema instead rejects the request, so no
parsed request — in particular not the claimed clamped one — is produced. -/
theorem scenarioRequest_shots13_rejected_not_clamped :
    parseScenarioRequest rawShots13 = none
    ∧ parseScenarioRequest rawShots13
        ≠ some ⟨"t1", "busy parents", "a calming tea", none, none, none, none,
            12, 3, none⟩ := by
  decide

/-- C2 amended: the shot count must be an integer within 1-12 (defaulting
to 6 when absent) and the focus level an integer within 1-5 (defaulting to
3 when absent); a present in-range value passes through unchanged, and an
out-of-range value causes the whole request to be rejected with a
validation error rather than being brought into range. -/
theorem scenarioRequest_shots_focus_validated (raw : RawScenarioRequest) :
    (∀ req, parseScenarioRequest raw = some req →
      (1 ≤ req.shots ∧ req.shots ≤ 12 ∧ 1 ≤ req.focusOnProduct ∧ req.focusOnProduct ≤ 5)
      ∧ (raw.shots = none → req.shots = 6)
      ∧ (∀ v, raw.shots = some v → req.shots = v)
      ∧ (raw.focusOnProduct = none → req.focusOnProduct = 3)
      ∧ (∀ v, raw.focusOnProduct = some v → req.focusOnProduct = v))
    ∧ (∀ v, raw.shots = some v → (v < 1 ∨ 12 < v) → parseScenarioRequest raw = none)
    ∧ (∀ v, raw.focusOnProduct = some v → (v < 1 ∨ 5 < v) →
        parseScenarioRequest raw = none) := by
  obtain ⟨tid, aud, pd, pn, ni, tn, vs, sh, fo, an⟩ := raw
  refine ⟨?_, ?_, ?_⟩
  · intro req hreq
    cases tid with
    | none => cases hreq
    | some t =>
      cases aud with
      | none => cases hreq
      | some a =>
        cases pd with
        | none => cases hreq
        | some d =>
          simp only [parseScenarioRequest] at hreq
          by_cases hlen : a.length < 1 || d.length < 1
          · rw [if_pos hlen] at hreq; cases hreq
          · rw [if_neg hlen] at hreq
            cases hsh : checkIntRange 1 12 6 sh with
            | none => rw [hsh] at hreq; cases hreq
            | some shv =>
              cases hfo : checkIntRange 1 5 3 fo with
              | none => rw [hsh, hfo] at hreq; cases hreq
              | some fov =>
                rw [hsh, hfo] at hreq
                have hreq' :
                    (⟨t, a, d, pn, ni, tn, vs, shv, fov, an⟩ : ScenarioRequest) = req :=
                  Option.some.inj hreq
                subst hreq'
                have hshb := checkIntRange_some hsh
                have hfob := checkIntRange_some hfo
                refine ⟨?_, ?_, ?_, ?_, ?_⟩
                · rcases hshb with ⟨_, rfl⟩ | ⟨_, h1, h2⟩ <;>
                    rcases hfob with ⟨_, rfl⟩ | ⟨_, h3, h4⟩ <;>
                    refine ⟨?_, ?_, ?_, ?_⟩ <;> simp_all
                · intro hnone
                  have hnone' : sh = none := hnone
                  show shv = 6
                  rcases hshb with ⟨_, h6⟩ | ⟨hsome, _, _⟩
                  · exact h6
                  · rw [hnone'] at hsome; cases hsome
                · intro v hv
                  have hv' : sh = some v := hv
                  show shv = v
                  rcases hshb with ⟨hnone, _⟩ | ⟨hsome, _, _⟩
                  · rw [hv'] at hnone; cases hnone
                  · rw [hv'] at hsome; exact (Option.some.inj hsome).symm
                · intro hnone
                  have hnone' : fo = none := hnone
                  show fov = 3
                  rcases hfob with ⟨_, h3⟩ | ⟨hsome, _, _⟩
                  · exact h3
                  · rw [hnone'] at hsome; cases hsome
                · intro v hv
                  have hv' : fo = some v := hv
                  show fov = v
                  rcases hfob with ⟨hnone, _⟩ | ⟨hsome, _, _⟩
                  · rw [hv'] at hnone; cases hnone
                  · rw [hv'] at hsome; exact (Option.some.inj hsome).symm
  · intro v hv hout
    cases tid with
    | none => rfl
    | some t =>
      cases aud with
      | none => rfl
      | some a =>
        cases pd with
        | none => rfl
        | some d =>
          have hv' : sh = some v := hv
          simp only [parseScenarioRequest, hv', checkIntRange_out hout]
          by_cases hlen : a.length < 1 || d.length < 1
          · rw [if_pos hlen]
          · rw [if_neg hlen]
  · intro v hv hout
    cases tid with
    | none => rfl
    | some t =>
      cases aud with
      | none => rfl
      | some a =>
        cases pd with
        | none => rfl
        | some d =>
          have hv' : fo = some v := hv
          simp only [parseScenarioRequest, hv', checkIntRange_out hout]
          by_cases hlen : a.length < 1 || d.length < 1
          · rw [if_pos hlen]
          · rw [if_neg hlen]
            cases checkIntRange 1 12 6 sh <;> rfl

/-- C2 witness: the amended theorem applied to concrete raw requests — an
absent shot count becomes 6 with focus level passed through, and a present
out-of-range shot count or focus level is rejected. -/
theorem scenarioRequest_shots_focus_validated_witness :
    parseScenarioRequest
        ⟨some "t1", some "busy parents", some "a calming tea", none, none, none, none,
          none, some 2, none⟩
      = some ⟨"t1", "busy parents", "a calming tea", none, none, none, none,
          6, 2, none⟩
    ∧ parseScenarioRequest
        ⟨some "t1", some "busy parents", some "a calming tea", none, none, none, none,
          some 5, some 9, none⟩
      = none := by
  constructor
  · decide
  · exact (scenarioRequest_shots_focus_validated
      ⟨some "t1", some "busy parents", some "a calming tea", none, none, none, none,
        some 5, some 9, none⟩).2.2 9 rfl (by decide)

/-! ## Response sanitization (src/app/api/openai/scenarios/route.ts, sanitizeResponse)

`sanitizeResponse` applies `.replace(/```json/g, "")`, then
`.replace(/```/g, "")`, then `.trim()`. Both regexes are literal patterns,
so each `replace` is a left-to-right, non-overlapping literal
replace-all, modelled by `replaceAll` below (fuel-structural so that it
evaluates inside the kernel; the fuel `l.length` always suffices because
every step consumes at least one character). `.trim()` and JSON whitespace
are both modelled with the common whitespace set (space, tab, LF, CR);
they differ only on exotic Unicode space characters no claim exercises. -/

def tick : Char := '\x60'

/-- Character list of the literal pattern in `/```/g`. -/
def fencePat : List Char := [tick, tick, tick]

/-- Character list of the literal pattern in `/```json/g`. -/
def fenceJsonPat : List Char := [tick, tick, tick, 'j', 's', 'o', 'n']

def isJsWs (c : Char) : Bool :=
  c = ' ' || c = '\t' || c = '\n' || c = '\x0d'

/-- Removes trailing whitespace (structurally, for easy induction). -/
def trimEndCh : List Char → List Char
  | [] => []
  | c :: cs =>
    match trimEndCh cs with
    | [] => if isJsWs c then [] else [c]
    | r => c :: r

/-- Model of `String.prototype.trim`: strip leading and trailing
whitespace. -/
def jsTrim (l : List Char) : List Char :=
  trimEndCh (l.dropWhile isJsWs)

/-- Fuel-driven literal replace-all: at each position, if the pattern
matches, drop it (the replacement is empty) and continue after it,
otherwise keep the character and move on. -/
def replaceAllF (pat : List Char) : Nat → List Char → List Char
  | 0, l => l
  | Nat.succ _, [] => []
  | Nat.succ f, c :: cs =>
    if pat ≠ [] ∧ beginsWith pat (c :: cs) then
      replaceAllF pat f (cs.drop (pat.length - 1))
    else
      c :: replaceAllF pat f cs

/-- Model of `.replace(/pat/g, "")` for a literal pattern `pat`. -/
def replaceAll (pat l : List Char) : List Char :=
  replaceAllF pat l.length l

/-- Model of `sanitizeResponse` on character lists. -/
def sanitizeChars (l : List Char) : List Char :=
  jsTrim (replaceAll fencePat (replaceAll fenceJsonPat l))

/-- Model of `sanitizeResponse`. -/
def sanitizeResponse (raw : String) : String :=
  String.mk (sanitizeChars raw.data)

theorem replaceAllF_nil (pat : List Char) (f : Nat) : replaceAllF pat f [] = [] := by
  cases f <;> rfl

theorem replaceAllF_no_occurrence (pat : List Char) :
    ∀ (f : Nat) (l : List Char), hasSub l pat = false → replaceAllF pat f l = l := by
  intro f
  induction f with
  | zero => intro l _; rfl
  | succ g ih =>
    intro l hl
    cases l with
    | nil => rfl
    | cons c cs =>
      rw [hasSub] at hl
      have hsplit := Bool.or_eq_false_iff.mp hl
      rw [replaceAllF, if_neg]
      · rw [ih cs hsplit.2]
      · intro hcond
        rw [hsplit.1] at hcond
        exact absurd hcond.2 (by simp)

theorem replaceAllF_leading {pat : List Char} (hne : pat ≠ []) (f : Nat)
    (rest : List Char) :
    replaceAllF pat (f + 1) (pat ++ rest) = replaceAllF pat f rest := by
  obtain ⟨p, ps, rfl⟩ : ∃ p ps, pat = p :: ps := by
    cases pat with
    | nil => exact absurd rfl hne
    | cons p ps => exact ⟨p, ps, rfl⟩
  show replaceAllF (p :: ps) (f + 1) (p :: (ps ++ rest)) = replaceAllF (p :: ps) f rest
  rw [replaceAllF, if_pos]
  · have hdrop : (ps ++ rest).drop ((p :: ps).length - 1) = rest := by
      simp only [List.length_cons, Nat.add_sub_cancel]
      exact List.drop_left ps rest
    rw [hdrop]
  · exact ⟨hne, beginsWith_append_self (p :: ps) rest⟩

theorem replaceAllF_fence_append :
    ∀ (l : List Char) (f : Nat), l.length + 3 ≤ f → hasSub l fencePat = false →
      replaceAllF fencePat f (l ++ fencePat) = l := by
  intro l
  induction l with
  | nil =>
    intro f hf _
    obtain ⟨f1, rfl⟩ : ∃ f1, f = f1 + 1 := ⟨f - 1, by omega⟩
    rw [List.nil_append]
    show replaceAllF fencePat (f1 + 1) (fencePat ++ []) = []
    rw [replaceAllF_leading (by decide) f1 []]
    exact replaceAllF_nil fencePat f1
  | cons c cs ih =>
    intro f hf hsub
    obtain ⟨f1, rfl⟩ : ∃ f1, f = f1 + 1 := ⟨f - 1, by omega⟩
    rw [hasSub] at hsub
    have hsplit := Bool.or_eq_false_iff.mp hsub
    by_cases hb : beginsWith fencePat (c :: (cs ++ fencePat)) = true
    · have hc : c = tick := by
        have := hb
        rw [fencePat, beginsWith] at this
        have := (Bool.and_eq_true _ _).mp this
        exact (beq_iff_eq.mp this.1).symm
      subst hc
      cases cs with
      | nil =>
        have h4 : (tick :: ([] : List Char)) ++ fencePat = fencePat ++ [tick] := by decide
        rw [h4, replaceAllF_leading (by decide) f1 [tick]]
        exact replaceAllF_no_occurrence fencePat f1 [tick] (by decide)
      | cons c2 cs2 =>
        have hc2 : c2 = tick := by
          have := hb
          rw [fencePat, beginsWith] at this
          have h1 := (Bool.and_eq_true _ _).mp this
          have h2 := h1.2
          rw [List.cons_append, beginsWith] at h2
          have h3 := (Bool.and_eq_true _ _).mp h2
          exact (beq_iff_eq.mp h3.1).symm
        subst hc2
        cases cs2 with
        | nil =>
          have h5 : (tick :: tick :: ([] : List Char)) ++ fencePat
              = fencePat ++ [tick, tick] := by decide
          rw [h5, replaceAllF_leading (by decide) f1 [tick, tick]]
          exact replaceAllF_no_occurrence fencePat f1 [tick, tick] (by decide)
        | cons c3 cs3 =>
          exfalso
          have hc3 : c3 = tick := by
            have := hb
            rw [fencePat, beginsWith] at this
            have h1 := (Bool.and_eq_true _ _).mp this
            have h2 := h1.2
            rw [List.cons_append, beginsWith] at h2
            have h3 := (Bool.and_eq_true _ _).mp h2
            have h4 := h3.2
            rw [List.cons_append, beginsWith] at h4
            have h5 := (Bool.and_eq_true _ _).mp h4
            exact (beq_iff_eq.mp h5.1).symm
          subst hc3
          have hfirst : beginsWith fencePat (tick :: tick :: tick :: cs3) = true := by
            rw [fencePat]
            simp [beginsWith]
          rw [hfirst] at hsplit
          exact absurd hsplit.1 (by simp)
    · rw [List.cons_append, replaceAllF, if_neg]
      · rw [ih f1 (by simp only [List.length_cons] at hf; omega) hsplit.2]
      · intro hcond
        exact hb hcond.2

theorem no_fencejson_in_doc_fence :
    ∀ (l : List Char), hasSub l fencePat = false →
      hasSub (l ++ fencePat) fenceJsonPat = false := by
  intro l
  induction l with
  | nil =>
    intro _
    decide
  | cons c cs ih =>
    intro hsub
    rw [hasSub] at hsub
    have hsplit := Bool.or_eq_false_iff.mp hsub
    rw [List.cons_append, hasSub]
    rw [Bool.or_eq_false_iff]
    refine ⟨?_, ih hsplit.2⟩
    by_contra hb
    rw [Bool.not_eq_false] at hb
    cases cs with
    | nil =>
      rw [fenceJsonPat, fencePat] at hb
      simp [beginsWith] at hb
    | cons a cs1 =>
      cases cs1 with
      | nil =>
        rw [fenceJsonPat, fencePat] at hb
        simp [beginsWith, tick] at hb
      | cons b cs2 =>
        cases cs2 with
        | nil =>
          rw [fenceJsonPat, fencePat] at hb
          simp [beginsWith, tick] at hb
        | cons c3 cs3 =>
          rw [fenceJsonPat] at hb
          simp only [List.cons_append, beginsWith, Bool.and_eq_true, beq_iff_eq] at hb
          have hfirst : beginsWith fencePat (c :: a :: b :: c3 :: cs3) = true := by
            rw [fencePat]
            simp only [beginsWith, Bool.and_eq_true, beq_iff_eq]
            exact ⟨hb.1, hb.2.1, hb.2.2.1, trivial⟩
          rw [hfirst] at hsplit
          exact absurd hsplit.1 (by simp)

theorem trimEndCh_idem : ∀ l : List Char, trimEndCh (trimEndCh l) = trimEndCh l := by
  intro l
  induction l with
  | nil => rfl
  | cons c cs ih =>
    cases h : trimEndCh cs with
    | nil =>
      by_cases hw : isJsWs c = true
      · have h1 : trimEndCh (c :: cs) = [] := by simp [trimEndCh, h, hw]
        rw [h1]
        rfl
      · have h1 : trimEndCh (c :: cs) = [c] := by simp [trimEndCh, h, hw]
        rw [h1]
        simp [trimEndCh, hw]
    | cons r rs =>
      have h1 : trimEndCh (c :: cs) = c :: r :: rs := by simp [trimEndCh, h]
      rw [h1]
      rw [h] at ih
      rw [trimEndCh, ih]

theorem trimEndCh_head (c : Char) (cs : List Char) :
    trimEndCh (c :: cs) = [] ∨ ∃ r, trimEndCh (c :: cs) = c :: r := by
  cases h : trimEndCh cs with
  | nil =>
    by_cases hw : isJsWs c = true
    · left; simp [trimEndCh, h, hw]
    · right; exact ⟨[], by simp [trimEndCh, h, hw]⟩
  | cons r rs => right; exact ⟨r :: rs, by simp [trimEndCh, h]⟩

theorem dropWhile_length_le (p : Char → Bool) :
    ∀ l : List Char, (l.dropWhile p).length ≤ l.length := by
  intro l
  induction l with
  | nil => simp
  | cons c cs ih =>
    by_cases h : p c = true
    · rw [List.dropWhile_cons_of_pos h]
      simp only [List.length_cons]
      omega
    · rw [List.dropWhile_cons_of_neg (by simp [h])]

theorem dropWhile_fix_head {p : Char → Bool} {c : Char} {cs : List Char}
    (h : (c :: cs).dropWhile p = c :: cs) : p c = false := by
  by_contra hp
  rw [Bool.not_eq_false] at hp
  rw [List.dropWhile_cons_of_pos hp] at h
  have hlen := congrArg List.length h
  simp only [List.length_cons] at hlen
  have := dropWhile_length_le p cs
  omega

theorem dropWhile_trimEnd_comm {l : List Char}
    (h : l.dropWhile isJsWs = l) :
    (trimEndCh l).dropWhile isJsWs = trimEndCh l := by
  cases l with
  | nil => rfl
  | cons c cs =>
    have hc : isJsWs c = false := dropWhile_fix_head h
    rcases trimEndCh_head c cs with he | ⟨r, he⟩
    · rw [he]; rfl
    · rw [he]
      exact List.dropWhile_cons_of_neg (by simp [hc])

theorem jsTrim_idem (l : List Char) : jsTrim (jsTrim l) = jsTrim l := by
  unfold jsTrim
  rw [dropWhile_trimEnd_comm (List.dropWhile_idempotent _ _)]
  exact trimEndCh_idem _

theorem sanitizeChars_wrap (doc : List Char) (hnf : hasSub doc fencePat = false) :
    sanitizeChars (fenceJsonPat ++ (doc ++ fencePat)) = jsTrim doc := by
  have h7 : hasSub (doc ++ fencePat) fenceJsonPat = false :=
    no_fencejson_in_doc_fence doc hnf
  unfold sanitizeChars replaceAll
  have hlen1 : (fenceJsonPat ++ (doc ++ fencePat)).length
      = (doc ++ fencePat).length + 6 + 1 := by
    simp only [List.length_append, fenceJsonPat, List.length_cons, List.length_nil]
    omega
  rw [hlen1]
  rw [replaceAllF_leading (by decide) ((doc ++ fencePat).length + 6) (doc ++ fencePat)]
  rw [replaceAllF_no_occurrence fenceJsonPat _ _ h7]
  have hlen2 : (doc ++ fencePat).length = doc.length + 3 := by
    simp only [List.length_append, fencePat, List.length_cons, List.length_nil]
  rw [hlen2]
  rw [replaceAllF_fence_append doc (doc.length + 3) (by omega) hnf]

/-! ## JSON values and `JSON.parse`

The route runs `JSON.parse` on the sanitized text and validates the result
with `scenarioResponseSchema`. `JSON.parse` is a JS builtin; it is modelled
here by an executable recursive-descent parser over character lists,
structural in a fuel argument (`2 * length + 2` always suffices since every
two parser steps consume at least one character; exhaustion only rejects,
it never mis-parses). Numbers keep their validated lexeme — no claim
depends on numeric values. `\uXXXX` escapes outside the scalar range
collapse to `Char.ofNat`'s default, a divergence from UTF-16 surrogates
that no claim exercises. Duplicate object keys resolve to the last
occurrence, as in `JSON.parse`. -/

inductive Json where
  | null
  | jbool (b : Bool)
  | jnum (lexeme : String)
  | jstr (s : String)
  | jarr (elems : List Json)
  | jobj (fields : List (String × Json))

def skipWs (l : List Char) : List Char := l.dropWhile isJsWs

def hexVal (c : Char) : Option Nat :=
  if '0' ≤ c ∧ c ≤ '9' then some (c.toNat - 48)
  else if 'a' ≤ c ∧ c ≤ 'f' then some (c.toNat - 87)
  else if 'A' ≤ c ∧ c ≤ 'F' then some (c.toNat - 55)
  else none

def escChar (e : Char) : Option Char :=
  if e = '"' then some '"'
  else if e = '\\' then some '\\'
  else if e = '/' then some '/'
  else if e = 'b' then some (Char.ofNat 8)
  else if e = 'f' then some (Char.ofNat 12)
  else if e = 'n' then some '\n'
  else if e = 'r' then some '\x0d'
  else if e = 't' then some '\t'
  else none

/-- Parses a JSON string body (after the opening quote), returning the
decoded characters and the input after the closing quote. -/
def parseJStr : Nat → List Char → Option (List Char × List Char)
  | 0, _ => none
  | Nat.succ _, [] => none
  | Nat.succ fuel, c :: rest =>
    if c = '"' then some ([], rest)
    else if c = '\\' then
      match rest with
      | [] => none
      | e :: rest2 =>
        if e = 'u' then
          match rest2 with
          | h1 :: h2 :: h3 :: h4 :: rest3 =>
            (match hexVal h1, hexVal h2, hexVal h3, hexVal h4 with
             | some a, some b, some c2, some d =>
               match parseJStr fuel rest3 with
               | some (s, r) =>
                 some (Char.ofNat (((a * 16 + b) * 16 + c2) * 16 + d) :: s, r)
               | none => none
             | _, _, _, _ => none)
          | _ => none
        else
          match escChar e with
          | some ec =>
            (match parseJStr fuel rest2 with
             | some (s, r) => some (ec :: s, r)
             | none => none)
          | none => none
    else if c.toNat < 32 then none
    else
      match parseJStr fuel rest with
      | some (s, r) => some (c :: s, r)
      | none => none

def lexInt : List Char → Option (List Char × List Char)
  | '0' :: t => some (['0'], t)
  | l =>
    match List.span (fun c => c.isDigit) l with
    | ([], _) => none
    | (ds, r) => some (ds, r)

def lexFrac : List Char → Option (List Char × List Char)
  | '.' :: t =>
    (match List.span (fun c => c.isDigit) t with
     | ([], _) => none
     | (ds, r) => some ('.' :: ds, r))
  | l => some ([], l)

def lexExp : List Char → Option (List Char × List Char)
  | [] => some ([], [])
  | e :: t =>
    if e = 'e' || e = 'E' then
      match t with
      | s :: t2 =>
        if s = '+' || s = '-' then
          match List.span (fun c => c.isDigit) t2 with
          | ([], _) => none
          | (ds, r) => some (e :: s :: ds, r)
        else
          match List.span (fun c => c.isDigit) t with
          | ([], _) => none
          | (ds, r) => some (e :: ds, r)
      | [] => none
    else some ([], e :: t)

/-- Lexes a JSON number, returning its lexeme and the remaining input. -/
def lexNumber (l : List Char) : Option (List Char × List Char) :=
  match l with
  | '-' :: t =>
    (match lexInt t with
     | some (ip, r1) =>
       match lexFrac r1 with
       | some (fp, r2) =>
         (match lexExp r2 with
          | some (ep, r3) => some ('-' :: (ip ++ fp ++ ep), r3)
          | none => none)
       | none => none
     | none => none)
  | _ =>
    match lexInt l with
    | some (ip, r1) =>
      (match lexFrac r1 with
       | some (fp, r2) =>
         (match lexExp r2 with
          | some (ep, r3) => some (ip ++ fp ++ ep, r3)
          | none => none)
       | none => none)
    | none => none

/-- Parser mode: a value, the inside of an array, or the inside of an
object (with the members accumulated so far). -/
inductive PMode where
  | value
  | arrBody (acc : List Json)
  | objBody (acc : List (String × Json))

def parseJ : Nat → PMode → List Char → Option (Json × List Char)
  | 0, _, _ => none
  | Nat.succ fuel, PMode.value, l =>
    (match skipWs l with
     | [] => none
     | c :: rest =>
       if c = '\x7b' then parseJ fuel (PMode.objBody []) rest
       else if c = '[' then parseJ fuel (PMode.arrBody []) rest
       else if c = '"' then
         match parseJStr (rest.length + 1) rest with
         | some (s, r) => some (Json.jstr (String.mk s), r)
         | none => none
       else if c = 't' then
         if beginsWith ['r', 'u', 'e'] rest then some (Json.jbool true, rest.drop 3)
         else none
       else if c = 'f' then
         if beginsWith ['a', 'l', 's', 'e'] rest then some (Json.jbool false, rest.drop 4)
         else none
       else if c = 'n' then
         if beginsWith ['u', 'l', 'l'] rest then some (Json.null, rest.drop 3)
         else none
       else
         match lexNumber (c :: rest) with
         | some (lex, r) => some (Json.jnum (String.mk lex), r)
         | none => none)
  | Nat.succ fuel, PMode.arrBody acc, l =>
    (match skipWs l with
     | ']' :: r =>
       (match acc with
        | [] => some (Json.jarr [], r)
        | _ :: _ => none)
     | l' =>
       match parseJ fuel PMode.value l' with
       | some (v, r) =>
         (match skipWs r with
          | ',' :: r2 => parseJ fuel (PMode.arrBody (acc ++ [v])) r2
          | ']' :: r2 => some (Json.jarr (acc ++ [v]), r2)
          | _ => none)
       | none => none)
  | Nat.succ fuel, PMode.objBody acc, l =>
    (match skipWs l with
     | '\x7d' :: r =>
       (match acc with
        | [] => some (Json.jobj [], r)
        | _ :: _ => none)
     | '"' :: rest =>
       (match parseJStr (rest.length + 1) rest with
        | some (key, r1) =>
          (match skipWs r1 with
           | ':' :: r2 =>
             (match parseJ fuel PMode.value r2 with
              | some (v, r3) =>
                (match skipWs r3 with
                 | ',' :: r4 =>
                   parseJ fuel (PMode.objBody (acc ++ [(String.mk key, v)])) r4
                 | '\x7d' :: r4 =>
                   some (Json.jobj (acc ++ [(String.mk key, v)]), r4)
                 | _ => none)
              | none => none)
           | _ => none)
        | none => none)
     | _ => none)

/-- Model of `JSON.parse` on character lists: trim, parse one value, and
require that nothing follows it. -/
def parseJsonList (l : List Char) : Option Json :=
  match parseJ (2 * (jsTrim l).length + 2) PMode.value (jsTrim l) with
  | some (v, r) => if r = [] then some v else none
  | none => none

theorem parseJsonList_trim (l : List Char) :
    parseJsonList (jsTrim l) = parseJsonList l := by
  unfold parseJsonList
  rw [jsTrim_idem]

/-! ## Scenario-batch schema validation (src/lib/schemas.ts, scenarioResponseSchema)

`scenarioResponseSchema.parse` on a parsed JSON value: an object with a
`scenarios` array of at least one scenario object; id/title/summary are
required strings, setting/shotList/hook optional (absent is fine, a
present value must have the right type). zod strips unknown keys, which
the typed result models by carrying only the schema fields. -/

/-- Object member lookup with `JSON.parse` duplicate-key semantics: the
last occurrence of a key wins. -/
def jsonLookup : List (String × Json) → String → Option Json
  | [], _ => none
  | (k, v) :: rest, key =>
    match jsonLookup rest key with
    | some v' => some v'
    | none => if k == key then some v else none

def optString : Option Json → Option (Option String)
  | none => some none
  | some (Json.jstr s) => some (some s)
  | some _ => none

def allStrings : List Json → Option (List String)
  | [] => some []
  | Json.jstr s :: rest =>
    (match allStrings rest with
     | some ss => some (s :: ss)
     | none => none)
  | _ :: _ => none

def optStringList : Option Json → Option (Option (List String))
  | none => some none
  | some (Json.jarr xs) =>
    (match allStrings xs with
     | some ss => some (some ss)
     | none => none)
  | some _ => none

/-- Validation of one scenario object against `scenarioSchema`. -/
def validateScenario (j : Json) : Option Scenario :=
  match j with
  | Json.jobj fields =>
    (match jsonLookup fields "id", jsonLookup fields "title",
        jsonLookup fields "summary" with
     | some (Json.jstr i), some (Json.jstr t), some (Json.jstr s) =>
       (match optString (jsonLookup fields "setting"),
           optStringList (jsonLookup fields "shotList"),
           optString (jsonLookup fields "hook") with
        | some st, some sl, some hk => some ⟨i, t, s, st, sl, hk⟩
        | _, _, _ => none)
     | _, _, _ => none)
  | _ => none

def validateScenarioList : List Json → Option (List Scenario)
  | [] => some []
  | j :: rest =>
    match validateScenario j, validateScenarioList rest with
    | some s, some ss => some (s :: ss)
    | _, _ => none

structure ScenarioBatch where
  scenarios : List Scenario
deriving DecidableEq, Repr

/-- Validation of a whole response against `scenarioResponseSchema`
(`scenarios` array present, at least one element, every element valid). -/
def validateBatch (j : Json) : Option ScenarioBatch :=
  match j with
  | Json.jobj fields =>
    (match jsonLookup fields "scenarios" with
     | some (Json.jarr xs) =>
       if xs.isEmpty then none
       else
         match validateScenarioList xs with
         | some ss => some ⟨ss⟩
         | none => none
     | _ => none)
  | _ => none

/-- Model of the route's `scenarioResponseSchema.parse(JSON.parse(clean))`
pipeline on a message body. -/
def parseScenarioBatch (s : String) : Option ScenarioBatch :=
  match parseJsonList s.data with
  | some j => validateBatch j
  | none => none

/-- JSON encoding of a scenario, with optional fields present exactly when
they are set — the shape the schema round-trips. -/
def encodeScenario (s : Scenario) : Json :=
  Json.jobj
    ([("id", Json.jstr s.id), ("title", Json.jstr s.title),
      ("summary", Json.jstr s.summary)]
      ++ (match s.setting with
          | some v => [("setting", Json.jstr v)]
          | none => [])
      ++ (match s.shotList with
          | some vs => [("shotList", Json.jarr (vs.map Json.jstr))]
          | none => [])
      ++ (match s.hook with
          | some v => [("hook", Json.jstr v)]
          | none => []))

def encodeBatch (b : ScenarioBatch) : Json :=
  Json.jobj [("scenarios", Json.jarr (b.scenarios.map encodeScenario))]

theorem allStrings_map (vs : List String) :
    allStrings (vs.map Json.jstr) = some vs := by
  induction vs with
  | nil => rfl
  | cons v rest ih => simp [allStrings, ih]

theorem validateScenario_encode (s : Scenario) :
    validateScenario (encodeScenario s) = some s := by
  obtain ⟨i, t, su, st, sl, hk⟩ := s
  cases st <;> cases sl <;> cases hk <;>
    simp [encodeScenario, validateScenario, jsonLookup, optString, optStringList,
      allStrings_map]

theorem validateScenarioList_encode (l : List Scenario) :
    validateScenarioList (l.map encodeScenario) = some l := by
  induction l with
  | nil => rfl
  | cons s rest ih =>
    simp [validateScenarioList, validateScenario_encode, ih]

/-- C8: the scenario-batch schema accepts an encoded batch exactly when
its scenarios array is non-empty, and validation is the identity on
accepted batches; concretely, a batch of six scenarios with distinct ids
round-trips unchanged, a batch of two scenarios is also accepted and
returned unchanged, and the empty batch is rejected. -/
theorem scenarioResponseSchema_accepts_iff_nonempty
    : (∀ b : ScenarioBatch,
        validateBatch (encodeBatch b) = if b.scenarios.isEmpty then none else some b)
      ∧ validateBatch (encodeBatch
          ⟨[⟨"s1", "t1", "m1", none, none, none⟩, ⟨"s2", "t2", "m2", none, none, none⟩,
            ⟨"s3", "t3", "m3", none, none, none⟩, ⟨"s4", "t4", "m4", none, none, none⟩,
            ⟨"s5", "t5", "m5", none, none, none⟩, ⟨"s6", "t6", "m6", none, none, none⟩]⟩)
        = some ⟨[⟨"s1", "t1", "m1", none, none, none⟩, ⟨"s2", "t2", "m2", none, none, none⟩,
            ⟨"s3", "t3", "m3", none, none, none⟩, ⟨"s4", "t4", "m4", none, none, none⟩,
            ⟨"s5", "t5", "m5", none, none, none⟩, ⟨"s6", "t6", "m6", none, none, none⟩]⟩
      ∧ validateBatch (encodeBatch
          ⟨[⟨"s1", "t1", "m1", none, none, none⟩, ⟨"s2", "t2", "m2", none, none, none⟩]⟩)
        = some ⟨[⟨"s1", "t1", "m1", none, none, none⟩, ⟨"s2", "t2", "m2", none, none, none⟩]⟩
      ∧ validateBatch (encodeBatch ⟨[]⟩) = none := by
  have hgen : ∀ b : ScenarioBatch,
      validateBatch (encodeBatch b) = if b.scenarios.isEmpty then none else some b := by
    intro b
    obtain ⟨l⟩ := b
    cases l with
    | nil => rfl
    | cons s rest =>
      have h := validateScenarioList_encode (s :: rest)
      simp only [List.map_cons] at h
      simp [validateBatch, encodeBatch, jsonLookup, h]
  refine ⟨hgen, ?_, ?_, ?_⟩
  · rw [hgen]; rfl
  · rw [hgen]; rfl
  · rw [hgen]; rfl

/-! ### Claim C6 -/

/-- C6: for every assistant message body that is a valid scenario-batch
JSON document wrapped in markdown code fences (the fenced document itself
containing no fence marker, as markdown wrapping requires), the
sanitization removes the fence markers and the enclosed JSON still parses
and validates to the same batch. -/
theorem sanitizeResponse_strips_fences_preserves_parse
    (doc : String) (b : ScenarioBatch)
    (hnf : containsStr doc "```" = false)
    (hdoc : parseScenarioBatch doc = some b) :
    parseScenarioBatch (sanitizeResponse ("```json" ++ doc ++ "```")) = some b := by
  have hfence : "```".data = fencePat := by decide
  have hfj : "```json".data = fenceJsonPat := by decide
  have hnf' : hasSub doc.data fencePat = false := by
    unfold containsStr at hnf
    rwa [hfence] at hnf
  have hdata : ("```json" ++ doc ++ "```").data
      = fenceJsonPat ++ (doc.data ++ fencePat) := by
    rw [string_data_append, string_data_append, hfj, hfence, List.append_assoc]
  show parseScenarioBatch (String.mk (sanitizeChars ("```json" ++ doc ++ "```").data))
      = some b
  rw [hdata, sanitizeChars_wrap doc.data hnf']
  unfold parseScenarioBatch
  show (match parseJsonList (jsTrim doc.data) with
        | some j => validateBatch j
        | none => none) = some b
  rw [parseJsonList_trim]
  exact hdoc

/-- Concrete fenced scenario document used by the C6 witness. -/
def sampleBatchDoc : String :=
  "\x7b\"scenarios\":[\x7b\"id\":\"a1\",\"title\":\"T\",\"summary\":\"S\"\x7d]\x7d"

/-- C6 witness: the theorem applied to a concrete one-scenario document. -/
theorem sanitizeResponse_strips_fences_preserves_parse_witness :
    containsStr sampleBatchDoc "```" = false
    ∧ parseScenarioBatch sampleBatchDoc
        = some ⟨[⟨"a1", "T", "S", none, none, none⟩]⟩
    ∧ parseScenarioBatch (sanitizeResponse ("```json" ++ sampleBatchDoc ++ "```"))
        = some ⟨[⟨"a1", "T", "S", none, none, none⟩]⟩ :=
  ⟨by decide, by decide,
    sanitizeResponse_strips_fences_preserves_parse sampleBatchDoc
      ⟨[⟨"a1", "T", "S", none, none, none⟩]⟩ (by decide) (by decide)⟩
